/-
Verification of the application discovery / deduplication / launch subsystem
of the NagaAgent repository (mcpserver/agent_open_launcher).

The Python code is shallowly embedded: each definition below carries a
reference to the source function it translates.  Python dicts are modelled as
insertion-ordered association lists (assignment to an existing key replaces
the value in place, assignment to a fresh key appends at the end), Python
`str.lower` / slicing are modelled over the character list of a `String`, and
Python exceptions are modelled with `Except String`.
-/
import Mathlib

/-- Python `str.lower()`: lower-case every character. -/
def pyLower (s : String) : String := ⟨s.data.map Char.toLower⟩

/-- Python `str.endswith(suffix)`. -/
def pyEndsWith (s suffix : String) : Bool := suffix.data.isSuffixOf s.data

/-- Python `s[:-4]`: all characters but the last four. -/
def pyDropRight4 (s : String) : String := ⟨s.data.take (s.data.length - 4)⟩

/-- Python `l[-k:]` for a nonnegative integer `k`: the whole list when
`k = 0`, otherwise the suffix of the (at most) `k` most recent elements. -/
def pyTailSlice (l : List α) (k : Nat) : List α :=
  if k = 0 then l else l.drop (l.length - k)

/-- Application source tags.  The `AppSource` enum of
cross_platform_app_scanner.py (lines 19-29); the enum of
enhanced_app_scanner.py (lines 20-27) declares only the first three and the
last three of these constructors. -/
inductive AppSource where
  | registry_app_paths
  | registry_uninstall
  | registry_user_uninstall
  | desktop_entry
  | applications_dir
  | bin_directory
  | shortcut_start_menu
  | shortcut_desktop
  | shortcut_common
deriving DecidableEq, Repr

/-- CrossPlatformAppScanner._get_source_priority
(cross_platform_app_scanner.py lines 591-604): the `priorities` dict covers
every constructor, the `.get` default 0 is unreachable. -/
def crossPlatformSourcePriority : AppSource → Nat
  | .desktop_entry => 5
  | .applications_dir => 5
  | .shortcut_start_menu => 4
  | .shortcut_desktop => 4
  | .shortcut_common => 4
  | .registry_app_paths => 3
  | .registry_uninstall => 2
  | .registry_user_uninstall => 1
  | .bin_directory => 2

/-- EnhancedAppScanner._get_source_priority (enhanced_app_scanner.py lines
509-519): the `priorities` dict lists only the six Windows sources; any other
value falls to the `.get` default 0 (no other value can be constructed in
that module, whose enum has exactly those six members). -/
def enhancedSourcePriority : AppSource → Nat
  | .shortcut_start_menu => 4
  | .shortcut_desktop => 4
  | .shortcut_common => 4
  | .registry_app_paths => 3
  | .registry_uninstall => 2
  | .registry_user_uninstall => 1
  | _ => 0

/-- Modelled from the spec: the priority table as the specification writes it
(desktop-entry/applications-directory = 5, shortcut = 4, registry-app-paths
= 3, registry-uninstall = 2, registry-user-uninstall / bin-directory = 1,
unrecognized = 0).  Kept separate from the code tables above so the two can
be compared; note the code gives bin_directory priority 2, not 1. -/
def specSourcePriority : AppSource → Nat
  | .desktop_entry => 5
  | .applications_dir => 5
  | .shortcut_start_menu => 4
  | .shortcut_desktop => 4
  | .shortcut_common => 4
  | .registry_app_paths => 3
  | .registry_uninstall => 2
  | .registry_user_uninstall => 1
  | .bin_directory => 1

/-- Application record: the fields of the `AppInfo` dataclass read by the
deduplication, name-index and launch logic modelled here.  `displayName` is
the value after `__post_init__` (which replaces a missing display name by
`name`).  The remaining optional metadata fields of the dataclass
(description, icon / shortcut_path, install_location, publisher, version,
last_modified, file_hash) are carried along unread by all the operations
modelled below and are omitted. -/
structure AppInfo where
  name : String
  path : String
  source : AppSource
  displayName : String
deriving DecidableEq, Repr

/-- Python dict lookup `m[k]` / `k in m` on an insertion-ordered association
list with pairwise-distinct keys. -/
def dictGet : List (String × AppInfo) → String → Option AppInfo
  | [], _ => none
  | (k, v) :: m, key => if k = key then some v else dictGet m key

/-- Python dict assignment `m[key] = v`: replace in place when the key is
present, append at the end when it is fresh. -/
def dictSet : List (String × AppInfo) → String → AppInfo → List (String × AppInfo)
  | [], key, v => [(key, v)]
  | (k, w) :: m, key, v =>
      if k = key then (key, v) :: m else (k, w) :: dictSet m key v

/-- Loop body of `_process_and_deduplicate`
(cross_platform_app_scanner.py lines 559-577, identically
enhanced_app_scanner.py lines 478-496), parametrised by the scanner's
`_get_source_priority` and by `os.path.exists`.  The state is the
insertion-ordered `unique_apps` dict together with the `seen_paths` set
(modelled as the list of paths added so far). -/
def dedupStep (prio : AppSource → Nat) (pathExists : String → Bool)
    (st : List (String × AppInfo) × List String) (app : AppInfo) :
    List (String × AppInfo) × List String :=
  if app.path = "" || !pathExists app.path then st
  else if app.path ∈ st.2 then st
  else
    let key := pyLower app.name
    match dictGet st.1 key with
    | none => (st.1 ++ [(key, app)], app.path :: st.2)
    | some existing =>
        if prio app.source > prio existing.source then
          (dictSet st.1 key app, app.path :: st.2)
        else (st.1, app.path :: st.2)

/-- Sort relation of `result.sort(key=lambda x: x.display_name.lower())`. -/
def displayLE (a b : AppInfo) : Prop :=
  pyLower a.displayName ≤ pyLower b.displayName

instance : DecidableRel displayLE :=
  fun a b => inferInstanceAs (Decidable (pyLower a.displayName ≤ pyLower b.displayName))

instance : IsTotal AppInfo displayLE :=
  ⟨fun a b => le_total (pyLower a.displayName) (pyLower b.displayName)⟩

instance : IsTrans AppInfo displayLE := ⟨fun _ _ _ => le_trans⟩

/-- `_process_and_deduplicate` (cross_platform_app_scanner.py lines 554-589,
enhanced_app_scanner.py lines 473-507): filter and deduplicate, sort the
surviving records by lower-cased display name (Python sort is stable, as is
`List.insertionSort` with a `≤`-style relation), then truncate to `max_apps`
records. -/
def process_and_deduplicate (prio : AppSource → Nat) (pathExists : String → Bool)
    (maxApps : Nat) (apps : List AppInfo) : List AppInfo :=
  let st := apps.foldl (dedupStep prio pathExists) ([], [])
  let result := st.1.map Prod.snd
  let result := List.insertionSort displayLE result
  if result.length > maxApps then result.take maxApps else result

/-- Loop body of `_build_name_map` (cross_platform_app_scanner.py lines
609-619, identically enhanced_app_scanner.py lines 524-534): register the
lower-cased primary name, the lower-cased display name when it differs, and
for names ending in `.exe` the extension-stripped name, the last one only
when that key is not already present. -/
def buildNameMapStep (m : List (String × AppInfo)) (app : AppInfo) :
    List (String × AppInfo) :=
  let m1 := dictSet m (pyLower app.name) app
  let m2 :=
    if pyLower app.displayName ≠ pyLower app.name then
      dictSet m1 (pyLower app.displayName) app
    else m1
  if pyEndsWith (pyLower app.name) ".exe" then
    let nameNoExt := pyLower (pyDropRight4 app.name)
    if dictGet m2 nameNoExt = none then dictSet m2 nameNoExt app else m2
  else m2

/-- `_build_name_map`: fold the registration step over the scan cache,
starting from the cleared map. -/
def build_name_map (cache : List AppInfo) : List (String × AppInfo) :=
  cache.foldl buildNameMapStep []

/-- `LaunchResult` enum (enhanced_app_launcher.py lines 30-38). -/
inductive LaunchResult where
  | success
  | failed
  | already_running
  | not_found
  | access_denied
  | invalid_path
  | timeout
deriving DecidableEq, Repr

/-- `LaunchStatus` dataclass (enhanced_app_launcher.py lines 40-50).  The
`start_time` float field is never read by the retry logic modelled here and
is omitted. -/
structure LaunchStatus where
  result : LaunchResult
  message : String
  appName : Option String := none
  processId : Option Nat := none
  errorCode : Option Int := none
  errorDetails : Option String := none
  launchMethod : Option String := none
deriving DecidableEq, Repr

/-- Retry loop of `launch_app` (enhanced_app_launcher.py lines 152-196),
parametrised by the launch strategy: attempt number `retryCount` either
raises (`Except.error` with the exception text) or returns a clean
`LaunchStatus`, which the loop returns immediately.  The `while retry_count
< max_retries` loop is modelled with the fuel `maxRetries - retryCount`; on
exhaustion the loop falls through to the final `failed` status carrying
`str(last_error)`. -/
def launchRetryGo (attempt : Nat → Except String LaunchStatus)
    (appDisplayName : String) (maxRetries : Nat) :
    Nat → Nat → Option String → LaunchStatus
  | 0, _, lastError =>
      { result := .failed
        message := "启动应用失败，已重试 " ++ toString maxRetries ++ " 次"
        appName := some appDisplayName
        errorDetails := some (lastError.getD "None") }
  | fuel + 1, retryCount, _lastError =>
      match attempt retryCount with
      | .ok status => status
      | .error e =>
          launchRetryGo attempt appDisplayName maxRetries fuel (retryCount + 1) (some e)

/-- Entry point of the retry loop: `retry_count = 0`, `last_error = None`. -/
def launch_app_retry (attempt : Nat → Except String LaunchStatus)
    (appDisplayName : String) (maxRetries : Nat) : LaunchStatus :=
  launchRetryGo attempt appDisplayName maxRetries maxRetries 0 none

/-- `_record_launch` history trimming (enhanced_app_launcher.py lines
400-419, identically cross_platform_app_launcher.py lines 534-554): when
`log_launch_details` is unset nothing is recorded; otherwise the entry is
appended and, when the length exceeds 100, the history is replaced by
`self.launch_history[-50:]`. -/
def record_launch (logLaunchDetails : Bool) (history : List α) (entry : α) :
    List α :=
  if !logLaunchDetails then history
  else
    let h := history ++ [entry]
    if h.length > 100 then pyTailSlice h 50 else h

/-- `get_launch_history` (enhanced_app_launcher.py lines 493-495):
`return self.launch_history[-limit:]`. -/
def get_launch_history (history : List α) (limit : Nat) : List α :=
  pyTailSlice history limit

/-- `_handle_get_launch_history` (robust_app_launcher_agent.py lines
406-434): reads `limit = data.get("limit", 10)` and passes it to
`get_launch_history` unchanged; the response data carries the history and
`total_records = len(self.launcher.launch_history)`. -/
def handle_get_launch_history (limitParam : Option Nat) (history : List α) :
    List α × Nat :=
  (get_launch_history history (limitParam.getD 10), history.length)

/-- Response envelope of the agent façade, restricted to the fields the
claims read (`success`, `status`, `message`, `request_id`). -/
structure AgentResponse where
  success : Bool
  status : String
  message : String
  requestId : String
deriving DecidableEq, Repr

/-- Python resolution of a bare boolean-looking identifier: `True` and
`False` are the boolean literals; any other bare name (the module defines no
variable named `false`) raises `NameError`. -/
def pyEvalBoolIdent : String → Except String Bool
  | "True" => .ok true
  | "False" => .ok false
  | s => .error ("NameError: name " ++ s ++ " is not defined")

/-- Body of the `try` block of `_get_app_list_for_selection`
(robust_app_launcher_agent.py lines 468-500): it builds the success
response dict, whose nested `example.options` literal on line 494 is
`"elevated": false` — the bare identifier `false`, not the Python literal
`False` — so evaluating the dict raises `NameError` before the response is
returned. -/
def build_selection_response (requestId : String) (totalCount : Nat) :
    Except String AgentResponse := do
  let _elevatedExample ← pyEvalBoolIdent "false"
  .ok { success := true
        status := "app_selection"
        message := "✅ 已获取到 " ++ toString totalCount ++
          " 个可用应用。请从下方列表中选择要启动的应用："
        requestId := requestId }

/-- `_get_app_list_for_selection` (robust_app_launcher_agent.py lines
466-510): the `except Exception` handler converts the raised error into the
error response. -/
def get_app_list_for_selection (requestId : String) (totalCount : Nat) :
    AgentResponse :=
  match build_selection_response requestId totalCount with
  | .ok r => r
  | .error msg =>
      { success := false
        status := "error"
        message := "获取应用列表失败: " ++ msg
        requestId := requestId }

/-- `_handle_launch_app` (robust_app_launcher_agent.py lines 218-275): when
the payload omits `app` (or supplies a falsy empty string) the handler
delegates to `_get_app_list_for_selection`; otherwise it runs the launch
path, abstracted here as the parameter `launch`. -/
def handle_launch_app (launch : String → AgentResponse) (app : Option String)
    (requestId : String) (totalCount : Nat) : AgentResponse :=
  match app with
  | none => get_app_list_for_selection requestId totalCount
  | some a =>
      if a = "" then get_app_list_for_selection requestId totalCount else launch a

/-- Declared fields of the cross-platform `AppInfo` dataclass
(cross_platform_app_scanner.py lines 31-50). -/
def crossPlatformAppInfoFields : List String :=
  ["name", "path", "source", "display_name", "description", "icon",
   "install_location", "publisher", "version", "last_modified", "file_hash"]

/-- Keyword arguments of the `AppInfo(...)` constructor call inside
`_parse_windows_shortcut` (cross_platform_app_scanner.py lines 331-339). -/
def shortcutCtorKeywords : List String :=
  ["name", "path", "source", "display_name", "shortcut_path",
   "last_modified", "file_hash"]

/-- Python dataclass construction with keyword arguments: a keyword that is
not a declared field raises `TypeError` before any record is built. -/
def callCrossAppInfo (kwargs : List String) (record : AppInfo) :
    Except String AppInfo :=
  match kwargs.find? (fun k => !crossPlatformAppInfoFields.contains k) with
  | some k => .error ("TypeError: unexpected keyword argument " ++ k)
  | none => .ok record

/-- `_parse_windows_shortcut` (cross_platform_app_scanner.py lines 301-343),
parametrised by `os.path.exists` and by the data read from the shortcut (the
resolved target, the `.lnk` stem and the optional description).  The final
constructor call passes the `shortcut_path` keyword; the `except Exception`
handler returns `None` on the resulting `TypeError`. -/
def parse_windows_shortcut (pathExists : String → Bool)
    (targetPath : Option String) (lnkStem : String)
    (description : Option String) : Option AppInfo :=
  match targetPath with
  | none => none
  | some tp =>
    if tp = "" then none
    else if !pathExists tp then none
    else if !pyEndsWith (pyLower tp) ".exe" then none
    else
      let appName :=
        match description with
        | some d => if d ≠ "" then d else lnkStem
        | none => lnkStem
      match callCrossAppInfo shortcutCtorKeywords
          { name := appName, path := tp, source := .shortcut_start_menu,
            displayName := appName } with
      | .ok r => some r
      | .error _ => none

/-- `_scan_windows_shortcuts` (cross_platform_app_scanner.py lines 271-299):
every `.lnk` file found is parsed and the non-`None` results collected. -/
def scan_windows_shortcuts (pathExists : String → Bool)
    (shortcuts : List (Option String × String × Option String)) :
    List AppInfo :=
  shortcuts.filterMap (fun s => parse_windows_shortcut pathExists s.1 s.2.1 s.2.2)

/-- Invariant of the deduplication loop state `(unique_apps, seen_paths)`:
pairwise-distinct keys, pairwise-distinct surviving paths, every entry keyed
by the lower-cased name of its record, and every surviving record with a
nonempty, existing path already added to `seen_paths`. -/
def DedupInv (pathExists : String → Bool)
    (st : List (String × AppInfo) × List String) : Prop :=
  (st.1.map Prod.fst).Nodup ∧
  (st.1.map (fun e => e.2.path)).Nodup ∧
  ∀ e ∈ st.1, e.1 = pyLower e.2.name ∧ e.2.path ∈ st.2 ∧
    e.2.path ≠ "" ∧ pathExists e.2.path = true

/-! Helper lemmas about the association-list model of Python dicts. -/

theorem dictGet_eq_none {m : List (String × AppInfo)} {k : String} :
    dictGet m k = none ↔ k ∉ m.map Prod.fst := by
  induction m with
  | nil => simp [dictGet]
  | cons e m ih =>
    obtain ⟨k', v⟩ := e
    by_cases h : k' = k
    · subst h
      simp [dictGet]
    · simp [dictGet, h, ih, Ne.symm h]

theorem dictGet_mem_of_some {m : List (String × AppInfo)} {k : String}
    {v : AppInfo} (h : dictGet m k = some v) : k ∈ m.map Prod.fst := by
  by_contra hc
  rw [dictGet_eq_none.mpr hc] at h
  exact Option.noConfusion h

theorem dictGet_append_of_none {m₁ m₂ : List (String × AppInfo)} {k : String}
    (h : dictGet m₁ k = none) : dictGet (m₁ ++ m₂) k = dictGet m₂ k := by
  induction m₁ with
  | nil => simp
  | cons e m ih =>
    obtain ⟨k', v⟩ := e
    by_cases hk : k' = k
    · simp [dictGet, hk] at h
    · simp only [List.cons_append, dictGet, hk, if_false] at h ⊢
      exact ih h

theorem dictSet_map_fst {m : List (String × AppInfo)} {k : String}
    {v : AppInfo} (h : k ∈ m.map Prod.fst) :
    (dictSet m k v).map Prod.fst = m.map Prod.fst := by
  induction m with
  | nil => simp at h
  | cons e m ih =>
    obtain ⟨k', w⟩ := e
    by_cases hk : k' = k
    · simp [dictSet, hk]
    · simp only [List.map_cons, List.mem_cons] at h
      rcases h with h | h
      · exact absurd h.symm hk
      · simp [dictSet, hk, ih h]

theorem mem_dictSet {m : List (String × AppInfo)} {k : String} {v : AppInfo}
    {e : String × AppInfo} (h : e ∈ dictSet m k v) : e = (k, v) ∨ e ∈ m := by
  induction m with
  | nil => simpa [dictSet] using h
  | cons f m ih =>
    obtain ⟨k', w⟩ := f
    by_cases hk : k' = k
    · simp only [dictSet, hk, if_true, List.mem_cons] at h
      rcases h with h | h
      · exact Or.inl h
      · exact Or.inr (List.mem_cons_of_mem _ h)
    · simp only [dictSet, hk, if_false, List.mem_cons] at h
      rcases h with h | h
      · exact Or.inr (by simp [h])
      · rcases ih h with h | h
        · exact Or.inl h
        · exact Or.inr (List.mem_cons_of_mem _ h)

theorem dictSet_paths_nodup {m : List (String × AppInfo)} {k : String}
    {v : AppInfo} (hnd : (m.map (fun e => e.2.path)).Nodup)
    (hp : v.path ∉ m.map (fun e => e.2.path)) :
    ((dictSet m k v).map (fun e => e.2.path)).Nodup := by
  induction m with
  | nil => simp [dictSet]
  | cons f m ih =>
    obtain ⟨k', w⟩ := f
    rw [List.map_cons, List.nodup_cons] at hnd
    rw [List.map_cons, List.mem_cons] at hp
    push_neg at hp
    by_cases hk : k' = k
    · rw [show dictSet ((k', w) :: m) k v = (k, v) :: m from by simp [dictSet, hk]]
      rw [List.map_cons, List.nodup_cons]
      exact ⟨hp.2, hnd.2⟩
    · rw [show dictSet ((k', w) :: m) k v = (k', w) :: dictSet m k v from by
        simp [dictSet, hk]]
      rw [List.map_cons, List.nodup_cons]
      refine ⟨?_, ih hnd.2 hp.2⟩
      intro hc
      rcases List.mem_map.mp hc with ⟨e, he, hpe⟩
      rcases mem_dictSet he with rfl | he'
      · exact hp.1 hpe
      · exact hnd.1 (List.mem_map.mpr ⟨e, he', hpe⟩)

theorem dictGet_dictSet_self {m : List (String × AppInfo)} {k : String}
    {v : AppInfo} : dictGet (dictSet m k v) k = some v := by
  induction m with
  | nil => simp [dictSet, dictGet]
  | cons e m ih =>
    obtain ⟨k', w⟩ := e
    by_cases hk : k' = k
    · simp [dictSet, dictGet, hk]
    · simp [dictSet, dictGet, hk, ih]

theorem dictGet_dictSet_ne {m : List (String × AppInfo)} {k k' : String}
    {v : AppInfo} (h : k' ≠ k) :
    dictGet (dictSet m k v) k' = dictGet m k' := by
  induction m with
  | nil => simp [dictSet, dictGet, Ne.symm h]
  | cons e m ih =>
    obtain ⟨k₀, w⟩ := e
    by_cases hk : k₀ = k
    · subst hk
      simp [dictSet, dictGet, Ne.symm h]
    · by_cases hk' : k₀ = k'
      · simp [dictSet, dictGet, hk, hk', h]
      · simp [dictSet, dictGet, hk, hk', ih]

/-! Invariant preservation for the deduplication loop. -/

theorem dedupStep_inv {prio : AppSource → Nat} {ex : String → Bool}
    {st : List (String × AppInfo) × List String} {app : AppInfo}
    (h : DedupInv ex st) : DedupInv ex (dedupStep prio ex st app) := by
  obtain ⟨m, seen⟩ := st
  obtain ⟨hkeys, hpaths, hent⟩ := h
  by_cases hne : app.path = ""
  · have hstep : dedupStep prio ex (m, seen) app = (m, seen) := by
      simp [dedupStep, hne]
    rw [hstep]
    exact ⟨hkeys, hpaths, hent⟩
  by_cases hex : ex app.path
  case neg =>
    rw [Bool.not_eq_true] at hex
    have hstep : dedupStep prio ex (m, seen) app = (m, seen) := by
      simp [dedupStep, hne, hex]
    rw [hstep]
    exact ⟨hkeys, hpaths, hent⟩
  case pos =>
  by_cases hseen : app.path ∈ seen
  · have hstep : dedupStep prio ex (m, seen) app = (m, seen) := by
      simp [dedupStep, hne, hex, hseen]
    rw [hstep]
    exact ⟨hkeys, hpaths, hent⟩
  have hpnotin : app.path ∉ m.map (fun e => e.2.path) := by
    intro hc
    rcases List.mem_map.mp hc with ⟨e, he, hpe⟩
    exact hseen (hpe ▸ (hent e he).2.1)
  have hmono : ∀ e ∈ m, e.1 = pyLower e.2.name ∧ e.2.path ∈ app.path :: seen ∧
      e.2.path ≠ "" ∧ ex e.2.path = true := by
    intro e he
    obtain ⟨h1, h2, h3, h4⟩ := hent e he
    exact ⟨h1, List.mem_cons_of_mem _ h2, h3, h4⟩
  cases hget : dictGet m (pyLower app.name) with
  | none =>
    have hstep : dedupStep prio ex (m, seen) app =
        (m ++ [(pyLower app.name, app)], app.path :: seen) := by
      simp [dedupStep, hne, hex, hseen, hget]
    rw [hstep]
    refine ⟨?_, ?_, ?_⟩
    · rw [List.map_append]
      refine List.Nodup.append hkeys (by simp) ?_
      intro x hx hx'
      simp only [List.map_cons, List.map_nil, List.mem_singleton] at hx'
      subst hx'
      exact dictGet_eq_none.mp hget hx
    · rw [List.map_append]
      refine List.Nodup.append hpaths (by simp) ?_
      intro x hx hx'
      simp only [List.map_cons, List.map_nil, List.mem_singleton] at hx'
      subst hx'
      exact hpnotin hx
    · intro e he
      rcases List.mem_append.mp he with he | he
      · exact hmono e he
      · simp only [List.mem_singleton] at he
        subst he
        exact ⟨rfl, List.mem_cons_self _ _, hne, hex⟩
  | some existing =>
    by_cases hprio : prio app.source > prio existing.source
    · have hstep : dedupStep prio ex (m, seen) app =
          (dictSet m (pyLower app.name) app, app.path :: seen) := by
        simp [dedupStep, hne, hex, hseen, hget, hprio]
      rw [hstep]
      refine ⟨?_, dictSet_paths_nodup hpaths hpnotin, ?_⟩
      · rw [dictSet_map_fst (dictGet_mem_of_some hget)]
        exact hkeys
      · intro e he
        rcases mem_dictSet he with rfl | he'
        · exact ⟨rfl, List.mem_cons_self _ _, hne, hex⟩
        · exact hmono e he'
    · have hstep : dedupStep prio ex (m, seen) app = (m, app.path :: seen) := by
        simp [dedupStep, hne, hex, hseen, hget, hprio]
      rw [hstep]
      exact ⟨hkeys, hpaths, hmono⟩

theorem foldl_dedupStep_inv {prio : AppSource → Nat} {ex : String → Bool}
    (apps : List AppInfo) (st : List (String × AppInfo) × List String)
    (h : DedupInv ex st) :
    DedupInv ex (apps.foldl (dedupStep prio ex) st) := by
  induction apps generalizing st with
  | nil => exact h
  | cons a l ih => exact ih _ (dedupStep_inv h)

theorem process_and_deduplicate_props (prio : AppSource → Nat)
    (ex : String → Bool) (maxApps : Nat) (apps : List AppInfo) :
    (process_and_deduplicate prio ex maxApps apps).Pairwise
      (fun a b => a.path ≠ b.path) ∧
    (process_and_deduplicate prio ex maxApps apps).Pairwise
      (fun a b => pyLower a.name ≠ pyLower b.name) ∧
    List.Sorted displayLE (process_and_deduplicate prio ex maxApps apps) ∧
    (∀ a ∈ process_and_deduplicate prio ex maxApps apps,
      a.path ≠ "" ∧ ex a.path = true) ∧
    (process_and_deduplicate prio ex maxApps apps).length ≤ maxApps := by
  obtain ⟨hkeys, hpaths, hent⟩ :
      DedupInv ex (apps.foldl (dedupStep prio ex) ([], [])) :=
    foldl_dedupStep_inv apps ([], []) (by simp [DedupInv])
  have hpathsL0 :
      ((apps.foldl (dedupStep prio ex) ([], [])).1.map Prod.snd).Pairwise
        (fun a b => a.path ≠ b.path) := by
    have h2 : (((apps.foldl (dedupStep prio ex) ([], [])).1.map Prod.snd).map
        (fun a => a.path)).Nodup := by
      rw [List.map_map]
      exact hpaths
    exact List.pairwise_map.mp h2
  have hnamesL0 :
      ((apps.foldl (dedupStep prio ex) ([], [])).1.map Prod.snd).Pairwise
        (fun a b => pyLower a.name ≠ pyLower b.name) := by
    have hcongr : (apps.foldl (dedupStep prio ex) ([], [])).1.map Prod.fst =
        (apps.foldl (dedupStep prio ex) ([], [])).1.map
          (fun e => pyLower e.2.name) :=
      List.map_congr_left (fun e he => (hent e he).1)
    have h2 : (((apps.foldl (dedupStep prio ex) ([], [])).1.map Prod.snd).map
        (fun a => pyLower a.name)).Nodup := by
      rw [List.map_map]
      rw [hcongr] at hkeys
      exact hkeys
    exact List.pairwise_map.mp h2
  have hmemL0 : ∀ a ∈ (apps.foldl (dedupStep prio ex) ([], [])).1.map Prod.snd,
      a.path ≠ "" ∧ ex a.path = true := by
    intro a ha
    rcases List.mem_map.mp ha with ⟨e, he, rfl⟩
    exact ⟨(hent e he).2.2.1, (hent e he).2.2.2⟩
  have hperm : List.Perm
      (List.insertionSort displayLE
        ((apps.foldl (dedupStep prio ex) ([], [])).1.map Prod.snd))
      ((apps.foldl (dedupStep prio ex) ([], [])).1.map Prod.snd) :=
    List.perm_insertionSort displayLE _
  have hpathsS := (hperm.pairwise_iff (fun h => Ne.symm h)).mpr hpathsL0
  have hnamesS := (hperm.pairwise_iff (fun h => Ne.symm h)).mpr hnamesL0
  have hsortS : List.Sorted displayLE (List.insertionSort displayLE
      ((apps.foldl (dedupStep prio ex) ([], [])).1.map Prod.snd)) :=
    List.sorted_insertionSort displayLE _
  have hmemS : ∀ a ∈ List.insertionSort displayLE
      ((apps.foldl (dedupStep prio ex) ([], [])).1.map Prod.snd),
      a.path ≠ "" ∧ ex a.path = true :=
    fun a ha => hmemL0 a (hperm.subset ha)
  have hproc : process_and_deduplicate prio ex maxApps apps =
      if (List.insertionSort displayLE
          ((apps.foldl (dedupStep prio ex) ([], [])).1.map Prod.snd)).length >
          maxApps
      then (List.insertionSort displayLE
          ((apps.foldl (dedupStep prio ex) ([], [])).1.map Prod.snd)).take maxApps
      else List.insertionSort displayLE
          ((apps.foldl (dedupStep prio ex) ([], [])).1.map Prod.snd) := rfl
  rw [hproc]
  by_cases hlen : (List.insertionSort displayLE
      ((apps.foldl (dedupStep prio ex) ([], [])).1.map Prod.snd)).length > maxApps
  · rw [if_pos hlen]
    have hsub := List.take_sublist maxApps (List.insertionSort displayLE
      ((apps.foldl (dedupStep prio ex) ([], [])).1.map Prod.snd))
    refine ⟨hpathsS.sublist hsub, hnamesS.sublist hsub,
      List.Pairwise.sublist hsub hsortS, fun a ha => hmemS a (hsub.subset ha), ?_⟩
    rw [List.length_take]
    exact min_le_left _ _
  · rw [if_neg hlen]
    exact ⟨hpathsS, hnamesS, hsortS, hmemS, Nat.le_of_not_lt hlen⟩

theorem process_and_deduplicate_def (prio : AppSource → Nat)
    (ex : String → Bool) (maxApps : Nat) (apps : List AppInfo) :
    process_and_deduplicate prio ex maxApps apps =
      if (List.insertionSort displayLE
          ((apps.foldl (dedupStep prio ex) ([], [])).1.map Prod.snd)).length >
          maxApps
      then (List.insertionSort displayLE
          ((apps.foldl (dedupStep prio ex) ([], [])).1.map Prod.snd)).take maxApps
      else List.insertionSort displayLE
          ((apps.foldl (dedupStep prio ex) ([], [])).1.map Prod.snd) := rfl

theorem foldl_dedupStep_fresh (prio : AppSource → Nat) (ex : String → Bool)
    (L : List AppInfo) :
    ∀ (m : List (String × AppInfo)) (seen : List String),
    (∀ a ∈ L, a.path ≠ "" ∧ ex a.path = true) →
    (∀ a ∈ L, a.path ∉ seen) →
    (∀ a ∈ L, dictGet m (pyLower a.name) = none) →
    L.Pairwise (fun a b => a.path ≠ b.path) →
    L.Pairwise (fun a b => pyLower a.name ≠ pyLower b.name) →
    (L.foldl (dedupStep prio ex) (m, seen)).1 =
      m ++ L.map (fun a => (pyLower a.name, a)) := by
  induction L with
  | nil =>
    intro m seen _ _ _ _ _
    simp
  | cons a L ih =>
    intro m seen hok hseen hfresh hpath hname
    have ha := hok a (List.mem_cons_self _ _)
    have hstep : dedupStep prio ex (m, seen) a =
        (m ++ [(pyLower a.name, a)], a.path :: seen) := by
      simp [dedupStep, ha.1, ha.2, hseen a (List.mem_cons_self _ _),
        hfresh a (List.mem_cons_self _ _)]
    have h1 : ∀ b ∈ L, b.path ≠ "" ∧ ex b.path = true :=
      fun b hb => hok b (List.mem_cons_of_mem _ hb)
    have h2 : ∀ b ∈ L, b.path ∉ a.path :: seen := by
      intro b hb
      simp only [List.mem_cons, not_or]
      exact ⟨fun hc => (List.rel_of_pairwise_cons hpath hb) hc.symm,
        hseen b (List.mem_cons_of_mem _ hb)⟩
    have h3 : ∀ b ∈ L,
        dictGet (m ++ [(pyLower a.name, a)]) (pyLower b.name) = none := by
      intro b hb
      rw [dictGet_append_of_none (hfresh b (List.mem_cons_of_mem _ hb))]
      have hne : pyLower a.name ≠ pyLower b.name :=
        List.rel_of_pairwise_cons hname hb
      simp [dictGet, hne]
    rw [List.foldl_cons, hstep, ih _ _ h1 h2 h3 hpath.of_cons hname.of_cons]
    simp

/-- C2: for every input list of candidate records, in the output of the
aggregator deduplication no two records share an identical path and no two
records share the same case-insensitive name.  Stated for an arbitrary
source-priority table, so it covers both the cross-platform and the
enhanced scanner. -/
theorem dedup_unique_paths_and_names (prio : AppSource → Nat)
    (ex : String → Bool) (maxApps : Nat) (apps : List AppInfo) :
    (process_and_deduplicate prio ex maxApps apps).Pairwise
      (fun a b => a.path ≠ b.path) ∧
    (process_and_deduplicate prio ex maxApps apps).Pairwise
      (fun a b => pyLower a.name ≠ pyLower b.name) :=
  ⟨(process_and_deduplicate_props prio ex maxApps apps).1,
   (process_and_deduplicate_props prio ex maxApps apps).2.1⟩

/-- C7: the aggregator deduplication is idempotent.  The filesystem is
modelled by the fixed predicate `ex`, which captures the claim's assumption
that every surviving path continues to exist on the second pass. -/
theorem dedup_idempotent (prio : AppSource → Nat) (ex : String → Bool)
    (maxApps : Nat) (apps : List AppInfo) :
    process_and_deduplicate prio ex maxApps
      (process_and_deduplicate prio ex maxApps apps) =
      process_and_deduplicate prio ex maxApps apps := by
  obtain ⟨hpa, hna, hsort, hmem, hlen⟩ :=
    process_and_deduplicate_props prio ex maxApps apps
  have hfold := foldl_dedupStep_fresh prio ex
    (process_and_deduplicate prio ex maxApps apps) [] []
    hmem (by simp) (fun a _ => rfl) hpa hna
  rw [process_and_deduplicate_def prio ex maxApps
    (process_and_deduplicate prio ex maxApps apps), hfold]
  simp only [List.nil_append, List.map_map]
  rw [show (Prod.snd ∘ fun a : AppInfo => (pyLower a.name, a)) = id from rfl,
    List.map_id, List.Sorted.insertionSort_eq hsort,
    if_neg (not_lt.mpr hlen)]

/-- C1 (amended): when two records that survive the path filter share the
same case-insensitive name, the aggregator keeps the record whose source has
the higher priority according to the scanner's own table (in the
cross-platform table bin_directory has priority 2, equal to
registry_uninstall, not 1 as the spec table says); on equal priorities the
first-encountered record is kept.  Stated for a two-record candidate list
over an arbitrary priority table, hence applicable to both scanners. -/
theorem dedup_pair_priority (prio : AppSource → Nat) (ex : String → Bool)
    (maxApps : Nat) (a b : AppInfo)
    (hmax : 0 < maxApps)
    (hpa : a.path ≠ "") (hea : ex a.path = true)
    (hpb : b.path ≠ "") (heb : ex b.path = true)
    (hne : b.path ≠ a.path)
    (hname : pyLower a.name = pyLower b.name) :
    process_and_deduplicate prio ex maxApps [a, b] =
      [if prio b.source > prio a.source then b else a] := by
  have h1 : ¬ (1 > maxApps) := by omega
  have hstep1 : dedupStep prio ex ([], []) a =
      ([(pyLower a.name, a)], [a.path]) := by
    simp [dedupStep, hpa, hea, dictGet]
  by_cases hp : prio b.source > prio a.source
  · have hstep2 : dedupStep prio ex ([(pyLower a.name, a)], [a.path]) b =
        ([(pyLower a.name, b)], [b.path, a.path]) := by
      simp [dedupStep, hpb, heb, hne, dictGet, ← hname, hp, dictSet]
    rw [process_and_deduplicate_def,
      show ([a, b].foldl (dedupStep prio ex) ([], [])) =
        ([(pyLower a.name, b)], [b.path, a.path]) from by
        rw [List.foldl_cons, hstep1, List.foldl_cons, hstep2, List.foldl_nil]]
    simp [h1, hp]
  · have hstep2 : dedupStep prio ex ([(pyLower a.name, a)], [a.path]) b =
        ([(pyLower a.name, a)], [b.path, a.path]) := by
      simp [dedupStep, hpb, heb, hne, dictGet, ← hname, hp, dictSet]
    rw [process_and_deduplicate_def,
      show ([a, b].foldl (dedupStep prio ex) ([], [])) =
        ([(pyLower a.name, a)], [b.path, a.path]) from by
        rw [List.foldl_cons, hstep1, List.foldl_cons, hstep2, List.foldl_nil]]
    simp [h1, hp]

/-- Witness for C1 (amended): a registry-uninstall record followed by a
same-named start-menu shortcut record; the shortcut (priority 4) wins over
registry-uninstall (priority 2). -/
theorem dedup_pair_priority_witness :
    process_and_deduplicate crossPlatformSourcePriority (fun _ => true) 1000
      [{ name := "Tool", path := "C:/reg/tool.exe",
         source := AppSource.registry_uninstall, displayName := "Tool" },
       { name := "tool", path := "C:/menu/tool.exe",
         source := AppSource.shortcut_start_menu, displayName := "tool" }] =
      [if crossPlatformSourcePriority AppSource.shortcut_start_menu >
          crossPlatformSourcePriority AppSource.registry_uninstall
       then { name := "tool", path := "C:/menu/tool.exe",
              source := AppSource.shortcut_start_menu, displayName := "tool" }
       else { name := "Tool", path := "C:/reg/tool.exe",
              source := AppSource.registry_uninstall, displayName := "Tool" }] :=
  dedup_pair_priority crossPlatformSourcePriority (fun _ => true) 1000 _ _
    (by decide) (by decide) rfl (by decide) rfl (by decide) (by decide)

/-- Counterexample to C1 as stated: a bin-directory record followed by a
same-named registry-uninstall record.  The claim's table gives the
registry-uninstall record the strictly higher priority (2 against 1), so the
claim predicts it is kept; the code gives both priority 2 and keeps the
first-encountered bin-directory record. -/
theorem dedup_priority_table_counterexample :
    (let binApp : AppInfo :=
      { name := "tool", path := "/usr/bin/tool",
        source := AppSource.bin_directory, displayName := "tool" }
     let regApp : AppInfo :=
      { name := "Tool", path := "C:/Apps/tool.exe",
        source := AppSource.registry_uninstall, displayName := "Tool" }
     binApp.path ≠ "" ∧ regApp.path ≠ "" ∧ binApp.path ≠ regApp.path ∧
     pyLower binApp.name = pyLower regApp.name ∧
     specSourcePriority regApp.source > specSourcePriority binApp.source ∧
     process_and_deduplicate crossPlatformSourcePriority (fun _ => true) 1000
       [binApp, regApp] = [binApp] ∧
     binApp ≠ regApp) := by decide

theorem buildNameMapStep_eq (m : List (String × AppInfo)) (app : AppInfo) :
    ∃ m2, (dictGet m2 (pyLower app.name) = some app ∧
           dictGet m2 (pyLower app.displayName) = some app ∧
           (∀ k, k ≠ pyLower app.name → k ≠ pyLower app.displayName →
             dictGet m2 k = dictGet m k)) ∧
      buildNameMapStep m app =
        (if pyEndsWith (pyLower app.name) ".exe" then
          if dictGet m2 (pyLower (pyDropRight4 app.name)) = none
          then dictSet m2 (pyLower (pyDropRight4 app.name)) app else m2
        else m2) := by
  refine ⟨if pyLower app.displayName ≠ pyLower app.name then
      dictSet (dictSet m (pyLower app.name) app) (pyLower app.displayName) app
    else dictSet m (pyLower app.name) app, ⟨?_, ?_, ?_⟩, rfl⟩
  · by_cases hd : pyLower app.displayName ≠ pyLower app.name
    · rw [if_pos hd, dictGet_dictSet_ne (Ne.symm hd)]
      exact dictGet_dictSet_self
    · rw [if_neg hd]
      exact dictGet_dictSet_self
  · by_cases hd : pyLower app.displayName ≠ pyLower app.name
    · rw [if_pos hd]
      exact dictGet_dictSet_self
    · rw [if_neg hd]
      push_neg at hd
      rw [hd]
      exact dictGet_dictSet_self
  · intro k hk1 hk2
    by_cases hd : pyLower app.displayName ≠ pyLower app.name
    · rw [if_pos hd, dictGet_dictSet_ne hk2, dictGet_dictSet_ne hk1]
    · rw [if_neg hd, dictGet_dictSet_ne hk1]

/-- C5 (amended): index construction registers the lower-cased primary name
and (when it differs) the lower-cased display name with last-write-wins
semantics — after processing a record those keys map to that record whatever
the map held before — while the extension-stripped variant of a `.exe` name
is registered only when the key is absent, so for that variant the earlier
owner keeps the key (first-write-wins); keys other than the record's three
variants are untouched. -/
theorem build_name_map_step_registrations (m : List (String × AppInfo))
    (app : AppInfo) :
    dictGet (buildNameMapStep m app) (pyLower app.name) = some app ∧
    dictGet (buildNameMapStep m app) (pyLower app.displayName) = some app ∧
    (∀ old : AppInfo, pyEndsWith (pyLower app.name) ".exe" = true →
      dictGet m (pyLower (pyDropRight4 app.name)) = some old →
      pyLower (pyDropRight4 app.name) ≠ pyLower app.name →
      pyLower (pyDropRight4 app.name) ≠ pyLower app.displayName →
      dictGet (buildNameMapStep m app) (pyLower (pyDropRight4 app.name)) =
        some old) ∧
    (∀ k, k ≠ pyLower app.name → k ≠ pyLower app.displayName →
      k ≠ pyLower (pyDropRight4 app.name) →
      dictGet (buildNameMapStep m app) k = dictGet m k) := by
  obtain ⟨m2, ⟨hnk, hdk, hother⟩, hb⟩ := buildNameMapStep_eq m app
  rw [hb]
  refine ⟨?_, ?_, ?_, ?_⟩
  · by_cases hexe : pyEndsWith (pyLower app.name) ".exe" = true
    · rw [if_pos hexe]
      cases hg : dictGet m2 (pyLower (pyDropRight4 app.name)) with
      | none =>
        rw [if_pos rfl]
        have hsk : pyLower app.name ≠ pyLower (pyDropRight4 app.name) := by
          intro hc
          rw [← hc, hnk] at hg
          exact Option.noConfusion hg
        rw [dictGet_dictSet_ne hsk]
        exact hnk
      | some w =>
        rw [if_neg (by simp)]
        exact hnk
    · rw [if_neg hexe]
      exact hnk
  · by_cases hexe : pyEndsWith (pyLower app.name) ".exe" = true
    · rw [if_pos hexe]
      cases hg : dictGet m2 (pyLower (pyDropRight4 app.name)) with
      | none =>
        rw [if_pos rfl]
        have hsk : pyLower app.displayName ≠ pyLower (pyDropRight4 app.name) := by
          intro hc
          rw [← hc, hdk] at hg
          exact Option.noConfusion hg
        rw [dictGet_dictSet_ne hsk]
        exact hdk
      | some w =>
        rw [if_neg (by simp)]
        exact hdk
    · rw [if_neg hexe]
      exact hdk
  · intro old hexe hold hsknk hskdk
    rw [if_pos hexe]
    have hm2 : dictGet m2 (pyLower (pyDropRight4 app.name)) = some old := by
      rw [hother _ hsknk hskdk]
      exact hold
    rw [if_neg (by simp [hm2])]
    exact hm2
  · intro k hk1 hk2 hk3
    by_cases hexe : pyEndsWith (pyLower app.name) ".exe" = true
    · rw [if_pos hexe]
      cases hg : dictGet m2 (pyLower (pyDropRight4 app.name)) with
      | none =>
        rw [if_pos rfl, dictGet_dictSet_ne hk3]
        exact hother k hk1 hk2
      | some w =>
        rw [if_neg (by simp)]
        exact hother k hk1 hk2
    · rw [if_neg hexe]
      exact hother k hk1 hk2

/-- Witness for C5 (amended): the record App.EXE is registered over a map
already owning the stripped key app; the earlier owner keeps that key. -/
theorem build_name_map_step_registrations_witness :
    dictGet
      (buildNameMapStep
        [("app",
          { name := "other", path := "C:/old/other.exe",
            source := AppSource.registry_app_paths, displayName := "other" })]
        { name := "App.EXE", path := "C:/new/app.exe",
          source := AppSource.shortcut_desktop, displayName := "My App" })
      (pyLower (pyDropRight4 "App.EXE")) =
      some
        { name := "other", path := "C:/old/other.exe",
          source := AppSource.registry_app_paths, displayName := "other" } :=
  (build_name_map_step_registrations
      [("app",
        { name := "other", path := "C:/old/other.exe",
          source := AppSource.registry_app_paths, displayName := "other" })]
      { name := "App.EXE", path := "C:/new/app.exe",
        source := AppSource.shortcut_desktop, displayName := "My App" }).2.2.1
    { name := "other", path := "C:/old/other.exe",
      source := AppSource.registry_app_paths, displayName := "other" }
    (by decide) (by decide) (by decide) (by decide)

/-- Counterexample to C5 as stated: the cache holds a record named app
followed by one named app.exe.  Both map the normalized key app (primary
name of the first, extension-stripped name of the second), the second is
registered later, yet the key stays with the first record because the
extension-stripped registration is guarded by a not-in-map check. -/
theorem build_name_map_last_write_counterexample :
    (let first : AppInfo :=
      { name := "app", path := "C:/a/app.exe",
        source := AppSource.registry_app_paths, displayName := "app" }
     let second : AppInfo :=
      { name := "app.exe", path := "C:/b/app.exe",
        source := AppSource.shortcut_start_menu, displayName := "app.exe" }
     pyLower first.name = "app" ∧
     pyEndsWith (pyLower second.name) ".exe" = true ∧
     pyLower (pyDropRight4 second.name) = "app" ∧
     dictGet (build_name_map [first, second]) "app" = some first ∧
     first ≠ second) := by decide

/-- C3 (code bug): a launch-app request omitting the app parameter is routed
to the selection-list builder, but the bare identifier false in the example
dict raises NameError, the handler's except clause converts it into an error
response, and the caller receives success = false instead of the documented
selection list. -/
theorem launch_app_selection_error (launch : String → AgentResponse)
    (requestId : String) (totalCount : Nat) :
    handle_launch_app launch none requestId totalCount =
      get_app_list_for_selection requestId totalCount ∧
    (handle_launch_app launch none requestId totalCount).success = false ∧
    (handle_launch_app launch none requestId totalCount).status = "error" ∧
    (handle_launch_app launch none requestId totalCount).message =
      "获取应用列表失败: NameError: name false is not defined" :=
  ⟨rfl, rfl, rfl, by
    show ("获取应用列表失败: " ++ ("NameError: name " ++ "false" ++
      " is not defined") : String) =
      "获取应用列表失败: NameError: name false is not defined"
    decide⟩

/-- C4: with max_retries = 3, a strategy raising on the first two attempts
and returning a clean success status on the third yields that success
status; a clean status returned by the first attempt is returned immediately
whatever it is; and when all three attempts raise, the loop returns failed
with the last exception text in error_details. -/
theorem launch_retry_policy :
    (∀ (attempt : Nat → Except String LaunchStatus) (nm : String)
      (st : LaunchStatus), attempt 0 = Except.ok st →
      launch_app_retry attempt nm 3 = st) ∧
    (∀ (attempt : Nat → Except String LaunchStatus) (nm : String)
      (e0 e1 : String) (st : LaunchStatus),
      attempt 0 = Except.error e0 → attempt 1 = Except.error e1 →
      attempt 2 = Except.ok st → st.result = LaunchResult.success →
      launch_app_retry attempt nm 3 = st ∧
      (launch_app_retry attempt nm 3).result = LaunchResult.success) ∧
    (∀ (attempt : Nat → Except String LaunchStatus) (nm : String)
      (e0 e1 e2 : String),
      attempt 0 = Except.error e0 → attempt 1 = Except.error e1 →
      attempt 2 = Except.error e2 →
      (launch_app_retry attempt nm 3).result = LaunchResult.failed ∧
      (launch_app_retry attempt nm 3).errorDetails = some e2) := by
  refine ⟨?_, ?_, ?_⟩
  · intro att nm st h0
    rw [show launch_app_retry att nm 3 =
      (match att 0 with
       | .ok s => s
       | .error e => launchRetryGo att nm 3 2 1 (some e)) from rfl, h0]
  · intro att nm e0 e1 st h0 h1 h2 hs
    have hval : launch_app_retry att nm 3 = st := by
      rw [show launch_app_retry att nm 3 =
        (match att 0 with
         | .ok s => s
         | .error e => launchRetryGo att nm 3 2 1 (some e)) from rfl, h0]
      show launchRetryGo att nm 3 2 1 (some e0) = st
      rw [show launchRetryGo att nm 3 2 1 (some e0) =
        (match att 1 with
         | .ok s => s
         | .error e => launchRetryGo att nm 3 1 2 (some e)) from rfl, h1]
      show launchRetryGo att nm 3 1 2 (some e1) = st
      rw [show launchRetryGo att nm 3 1 2 (some e1) =
        (match att 2 with
         | .ok s => s
         | .error e => launchRetryGo att nm 3 0 3 (some e)) from rfl, h2]
    exact ⟨hval, by rw [hval]; exact hs⟩
  · intro att nm e0 e1 e2 h0 h1 h2
    have hval : launch_app_retry att nm 3 =
        { result := LaunchResult.failed,
          message := "启动应用失败，已重试 " ++ toString 3 ++ " 次",
          appName := some nm,
          errorDetails := some ((some e2).getD "None") } := by
      rw [show launch_app_retry att nm 3 =
        (match att 0 with
         | .ok s => s
         | .error e => launchRetryGo att nm 3 2 1 (some e)) from rfl, h0]
      show launchRetryGo att nm 3 2 1 (some e0) = _
      rw [show launchRetryGo att nm 3 2 1 (some e0) =
        (match att 1 with
         | .ok s => s
         | .error e => launchRetryGo att nm 3 1 2 (some e)) from rfl, h1]
      show launchRetryGo att nm 3 1 2 (some e1) = _
      rw [show launchRetryGo att nm 3 1 2 (some e1) =
        (match att 2 with
         | .ok s => s
         | .error e => launchRetryGo att nm 3 0 3 (some e)) from rfl, h2]
      rfl
    exact ⟨by rw [hval], by rw [hval]; rfl⟩

/-- Witness for C4: a strategy raising twice and succeeding on the third
attempt yields the success status. -/
theorem launch_retry_policy_witness :
    launch_app_retry
      (fun n => if n = 0 then Except.error "boom0"
        else if n = 1 then Except.error "boom1"
        else Except.ok { result := LaunchResult.success, message := "ok" })
      "demo" 3 = { result := LaunchResult.success, message := "ok" } :=
  (launch_retry_policy.2.1
    (fun n => if n = 0 then Except.error "boom0"
      else if n = 1 then Except.error "boom1"
      else Except.ok { result := LaunchResult.success, message := "ok" })
    "demo" "boom0" "boom1"
    { result := LaunchResult.success, message := "ok" }
    rfl rfl rfl rfl).1

/-- C6: recording a launch never lets the stored history exceed 100 entries:
nothing is stored when logging is off; an append that stays within 100 keeps
the history plus the new entry; an append that exceeds 100 replaces the
history by exactly the most recent 50 entries in order. -/
theorem record_launch_cap {α : Type} (log : Bool) (h : List α) (e : α)
    (hlen : h.length ≤ 100) :
    (record_launch log h e).length ≤ 100 ∧
    (log = false → record_launch log h e = h) ∧
    (log = true → h.length + 1 ≤ 100 → record_launch log h e = h ++ [e]) ∧
    (log = true → h.length + 1 > 100 →
      record_launch log h e = (h ++ [e]).drop (h.length + 1 - 50) ∧
      (record_launch log h e).length = 50) := by
  cases log with
  | false =>
    refine ⟨by simpa [record_launch] using hlen,
      fun _ => by simp [record_launch], ?_, ?_⟩
    · intro hc
      exact absurd hc (by simp)
    · intro hc
      exact absurd hc (by simp)
  | true =>
    by_cases hover : h.length + 1 > 100
    · have hrl : record_launch true h e =
          (h ++ [e]).drop (h.length + 1 - 50) := by
        simp [record_launch, pyTailSlice, hover]
      refine ⟨?_, by simp, ?_, ?_⟩
      · rw [hrl]
        simp only [List.length_drop, List.length_append, List.length_singleton]
        omega
      · intro _ hle
        exact absurd hle (by omega)
      · intro _ _
        refine ⟨hrl, ?_⟩
        rw [hrl]
        simp only [List.length_drop, List.length_append, List.length_singleton]
        omega
    · have hrl : record_launch true h e = h ++ [e] := by
        simp [record_launch, hover]
      refine ⟨?_, by simp, fun _ _ => hrl, fun _ hc => absurd hc hover⟩
      rw [hrl]
      simp only [List.length_append, List.length_singleton]
      omega

/-- Witness for C6: appending a 101st entry trims the history to 50. -/
theorem record_launch_cap_witness :
    (record_launch true (List.replicate 100 (0 : Nat)) 0).length = 50 :=
  ((record_launch_cap true (List.replicate 100 (0 : Nat)) 0 (by simp)).2.2.2
    rfl (by simp)).2

/-- C9: the cross-platform Windows shortcut parser returns no record on
every input, because its record constructor is called with the keyword
shortcut_path that the cross-platform AppInfo dataclass does not declare
and the TypeError is swallowed; the Windows shortcut scan therefore always
contributes zero records. -/
theorem windows_shortcut_yields_no_records :
    (∀ (ex : String → Bool) (tp : Option String) (stem : String)
      (d : Option String), parse_windows_shortcut ex tp stem d = none) ∧
    (∀ (ex : String → Bool)
      (ss : List (Option String × String × Option String)),
      scan_windows_shortcuts ex ss = []) ∧
    "shortcut_path" ∈ shortcutCtorKeywords ∧
    "shortcut_path" ∉ crossPlatformAppInfoFields := by
  have hparse : ∀ (ex : String → Bool) (tp : Option String) (stem : String)
      (d : Option String), parse_windows_shortcut ex tp stem d = none := by
    intro ex tp stem d
    cases tp with
    | none => rfl
    | some t =>
      simp only [parse_windows_shortcut]
      by_cases h1 : t = ""
      · rw [if_pos h1]
      · rw [if_neg h1]
        by_cases h2 : (!ex t) = true
        · rw [if_pos h2]
        · rw [if_neg h2]
          by_cases h3 : (!pyEndsWith (pyLower t) ".exe") = true
          · rw [if_pos h3]
          · rw [if_neg h3]
            rfl
  have hscan : ∀ (ex : String → Bool)
      (ss : List (Option String × String × Option String)),
      scan_windows_shortcuts ex ss = [] := by
    intro ex ss
    simp only [scan_windows_shortcuts]
    induction ss with
    | nil => rfl
    | cons s ss ih =>
      rw [List.filterMap_cons, hparse]
      exact ih
  exact ⟨hparse, hscan, by decide, by decide⟩

/-- C10: get_launch_history with limit 0 returns the whole stored history;
with 0 < limit ≤ length it returns exactly the limit most recent entries in
order; and the façade handler passes the supplied limit through unchanged,
so a request with limit 0 receives every record. -/
theorem get_launch_history_limits {α : Type} (history : List α) (k : Nat)
    (h1 : 0 < k) (h2 : k ≤ history.length) :
    get_launch_history history 0 = history ∧
    (get_launch_history history k).length = k ∧
    history = List.take (history.length - k) history ++
      get_launch_history history k ∧
    (handle_get_launch_history (some 0) history).1 = history ∧
    (handle_get_launch_history (some k) history).1 =
      get_launch_history history k := by
  have hk0 : k ≠ 0 := Nat.pos_iff_ne_zero.mp h1
  refine ⟨by simp [get_launch_history, pyTailSlice], ?_, ?_,
    by simp [handle_get_launch_history, get_launch_history, pyTailSlice], rfl⟩
  · simp only [get_launch_history, pyTailSlice, hk0, if_false,
      List.length_drop]
    omega
  · rw [show get_launch_history history k =
      history.drop (history.length - k) from by
      simp [get_launch_history, pyTailSlice, hk0]]
    exact (List.take_append_drop _ _).symm

/-- Witness for C10 on a three-entry history with limit 2 (and limit 0). -/
theorem get_launch_history_limits_witness :
    get_launch_history [10, 20, 30] 0 = [10, 20, 30] ∧
    (get_launch_history [10, 20, 30] 2).length = 2 ∧
    [10, 20, 30] = List.take ([10, 20, 30].length - 2) [10, 20, 30] ++
      get_launch_history [10, 20, 30] 2 ∧
    (handle_get_launch_history (some 0) [10, 20, 30]).1 = [10, 20, 30] ∧
    (handle_get_launch_history (some 2) [10, 20, 30]).1 =
      get_launch_history [10, 20, 30] 2 :=
  get_launch_history_limits [10, 20, 30] 2 (by decide) (by decide)
